import Mathlib

/-!
Verification of the NPC decision layer of the rogue-like repository
(src/source/components/ai.py): the pathfinding cost model, the field-of-view
based perception service, and the four species behavior policies
(HostileEnemy, Orc, Troll, Animal).

The cost-grid construction, the perception filter/sort and all four
perform methods are translated directly from the source.  The two external
tcod library calls (tcod.path.Pathfinder and tcod.map.compute_fov) and the
random.randint draw have no source in the repository; they are modelled
from the spec, as flagged on their definitions.
-/

namespace RL

/-- Grid cell coordinates (x, y), matching the numpy arrays indexed [x, y]. -/
abbrev Cell := Nat × Nat

/-- Absolute difference of two naturals. -/
def axDiff (a b : Nat) : Nat := max (a - b) (b - a)

/-- Chebyshev distance, as in get_actors_in_fov: max(abs dx, abs dy). -/
def chebDist (a b : Cell) : Nat := max (axDiff a.1 b.1) (axDiff a.2 b.2)

/-- Two cells are 8-directionally adjacent (exactly one king move apart). -/
def adjacentB (a b : Cell) : Bool := chebDist a b == 1

/-- A step between two cells is diagonal when both coordinates change. -/
def isDiag (a b : Cell) : Bool := (axDiff a.1 b.1 == 1) && (axDiff a.2 b.2 == 1)

/-- The tile grids of the game map: walkable and transparent booleans plus
the corrupted-floor tile tag read by the Animal policy. -/
structure GameMap where
  width : Nat
  height : Nat
  walkable : Cell → Bool
  transparent : Cell → Bool
  corrupted : Cell → Bool

/-- An entity on the map: position, faction id and movement-blocking flag. -/
structure Actor where
  x : Nat
  y : Nat
  faction : Nat
  blocks_movement : Bool
deriving DecidableEq, Repr

/-- Position of an actor as a cell. -/
def Actor.pos (a : Actor) : Cell := (a.x, a.y)

/-- All cells of the map, ordered with x outermost then y, matching the
C-order iteration of a numpy array indexed [x, y] (as np.where returns). -/
def allCells (m : GameMap) : List Cell :=
  (List.range m.width).flatMap (fun x => (List.range m.height).map (fun y => (x, y)))

/-- Bounds test for the tile grids. -/
def inGrid (m : GameMap) (c : Cell) : Bool := c.1 < m.width && c.2 < m.height

/-- Per-cell pathfinding cost, translated from BaseAI.get_path_to: walkable
cells start at cost 1, then every movement-blocking entity standing on a
nonzero-cost cell adds 10 to that cell; non-walkable cells have cost 0 and
are impassable. -/
def cellCost (m : GameMap) (ents : List Actor) (c : Cell) : Nat :=
  if inGrid m c && m.walkable c then
    1 + 10 * (ents.filter (fun e => e.blocks_movement && (e.pos == c))).length
  else 0

/-- Cost of one step from a into the adjacent cell b, per
tcod.path.SimpleGraph(cost, cardinal=2, diagonal=3): twice the destination
cell cost for a cardinal step, three times for a diagonal step. -/
def moveCost (m : GameMap) (ents : List Actor) (a b : Cell) : Nat :=
  (if isDiag a b then 3 else 2) * cellCost m ents b

/-- Minimum of a list of naturals, none on the empty list. -/
def natsMin : List Nat → Option Nat
  | [] => none
  | a :: rest =>
    match natsMin rest with
    | none => some a
    | some b => some (min a b)

/-- Distance lookup in the association list built by the relaxation rounds. -/
def lookupDist (d : List (Cell × Nat)) (c : Cell) : Option Nat :=
  (d.find? (fun p => decide (p.1 = c))).map Prod.snd

/-- Candidate relaxation values for cell c: reach c from some adjacent cell
that already has a tentative distance, paying the step cost into c; cells
of cost 0 are never entered. -/
def relaxCands (m : GameMap) (ents : List Actor) (dist : List (Cell × Nat)) (c : Cell) :
    List Nat :=
  if cellCost m ents c == 0 then []
  else
    (allCells m).filterMap (fun n =>
      if adjacentB n c then (lookupDist dist n).map (fun dn => dn + moveCost m ents n c)
      else none)

/-- New tentative distance of cell c after one relaxation round: the best of
distance 0 at the search root, the previous tentative distance, and every
one-step relaxation from a neighbour. -/
def relaxCell (m : GameMap) (ents : List Actor) (origin : Cell)
    (dist : List (Cell × Nat)) (c : Cell) : Option Nat :=
  natsMin ((if c = origin then [0] else []) ++ (lookupDist dist c).toList
    ++ relaxCands m ents dist c)

/-- One simultaneous relaxation round over all map cells. -/
def relaxRound (m : GameMap) (ents : List Actor) (origin : Cell)
    (dist : List (Cell × Nat)) : List (Cell × Nat) :=
  (allCells m).filterMap (fun c => (relaxCell m ents origin dist c).map (fun v => (c, v)))

/-- Iterate a function n times. -/
def iterN (f : α → α) : Nat → α → α
  | 0, x => x
  | n + 1, x => f (iterN f n x)

/-- Tentative distances after k relaxation rounds from the empty table. -/
def bfIter (m : GameMap) (ents : List Actor) (origin : Cell) (k : Nat) :
    List (Cell × Nat) :=
  iterN (relaxRound m ents origin) k []

/-- Final distance table: enough rounds that every cell's tentative distance
is the true shortest-path distance from the origin. -/
def bfDist (m : GameMap) (ents : List Actor) (origin : Cell) : List (Cell × Nat) :=
  bfIter m ents origin (m.width * m.height + 1)

/-- Choose a predecessor of c on some optimal path: an adjacent cell whose
final distance plus the step cost into c equals the final distance of c. -/
def stepBack (m : GameMap) (ents : List Actor) (dist : List (Cell × Nat)) (c : Cell) :
    Option Cell :=
  (allCells m).find? (fun n =>
    adjacentB n c &&
      match lookupDist dist n, lookupDist dist c with
      | some dn, some dc => dn + moveCost m ents n c == dc
      | _, _ => false)

/-- Walk predecessors back from c to the origin, accumulating the path in
start-to-goal order; the origin itself is never pushed. -/
def recon (m : GameMap) (ents : List Actor) (origin : Cell) (dist : List (Cell × Nat)) :
    Nat → Cell → List Cell → List Cell
  | 0, _, acc => acc
  | fuel + 1, c, acc =>
    if c = origin then acc
    else
      match stepBack m ents dist c with
      | some n => recon m ents origin dist fuel n (c :: acc)
      | none => []

/-- Modelled from the spec: the external tcod.path.Pathfinder weighted
shortest-path search invoked by BaseAI.get_path_to, realised as Bellman-Ford
relaxation plus backward path reconstruction.  Returns a minimum-cost path
ordered start to goal with the origin stripped, and [] when the destination
equals the origin or is unreachable. -/
def findPath (m : GameMap) (ents : List Actor) (origin dest : Cell) : List Cell :=
  if origin = dest then []
  else
    match lookupDist (bfDist m ents origin) dest with
    | none => []
    | some dc => recon m ents origin (bfDist m ents origin) (dc + 1) dest []

/-- BaseAI.get_path_to: build the cost grid from the map tiles and the
movement-blocking entities, run the pathfinder from the entity's position,
and return the path with the starting point removed. -/
def getPathTo (m : GameMap) (ents : List Actor) (origin dest : Cell) : List Cell :=
  findPath m ents origin dest

/-- One legal pathfinder step: into an 8-adjacent cell of nonzero cost. -/
def Step (m : GameMap) (ents : List Actor) (a b : Cell) : Prop :=
  adjacentB a b = true ∧ cellCost m ents b ≠ 0

instance (m : GameMap) (ents : List Actor) (a b : Cell) : Decidable (Step m ents a b) :=
  inferInstanceAs (Decidable (adjacentB a b = true ∧ cellCost m ents b ≠ 0))

/-- A valid path out of s: every consecutive hop is a legal step. -/
def ValidPath (m : GameMap) (ents : List Actor) (s : Cell) (p : List Cell) : Prop :=
  List.Chain (Step m ents) s p

instance validPathDec (m : GameMap) (ents : List Actor) :
    (s : Cell) → (p : List Cell) → Decidable (ValidPath m ents s p)
  | _, [] => isTrue List.Chain.nil
  | s, c :: rest =>
    haveI : Decidable (ValidPath m ents c rest) := validPathDec m ents c rest
    decidable_of_iff (Step m ents s c ∧ ValidPath m ents c rest) List.chain_cons.symm

/-- Final cell of a path that starts at o. -/
def endAt (o : Cell) (p : List Cell) : Cell := p.getLastD o

/-- Total traversal cost of a path out of s. -/
def costFrom (m : GameMap) (ents : List Actor) : Cell → List Cell → Nat
  | _, [] => 0
  | s, c :: rest => moveCost m ents s c + costFrom m ents c rest

/-- Squared Euclidean distance between cells. -/
def distSq (a b : Cell) : Nat := axDiff a.1 b.1 ^ 2 + axDiff a.2 b.2 ^ 2

/-- Nearest natural to a / b (round half up), used to discretise sight lines. -/
def roundDiv (a b : Nat) : Nat := (2 * a + b) / (2 * b)

/-- Interior cells of the discretised line of sight from a to b, both
endpoints excluded. -/
def losCells (a b : Cell) : List Cell :=
  let n := chebDist a b
  (List.range (n - 1)).map (fun i =>
    let j := i + 1
    (roundDiv (a.1 * (n - j) + b.1 * j) n, roundDiv (a.2 * (n - j) + b.2 * j) n))

/-- Modelled from the spec: the external tcod.map.compute_fov call made by
BaseAI.get_fov with radius 8.  A cell is visible when it lies within
Euclidean radius 8 of the origin and no interior cell of the sight line is
opaque; the origin itself is always visible. -/
def getFov (m : GameMap) (origin c : Cell) : Bool :=
  distSq origin c ≤ 64 &&
    (losCells origin c).all (fun p => inGrid m p && m.transparent p)

/-- Stable insertion of a (target, distance) pair into a distance-sorted
list: equal distances keep their existing order. -/
def insertByDist (x : Actor × Nat) : List (Actor × Nat) → List (Actor × Nat)
  | [] => [x]
  | y :: ys => if x.2 < y.2 then x :: y :: ys else y :: insertByDist x ys

/-- Stable sort of (target, distance) pairs by ascending distance. -/
def sortByDist : List (Actor × Nat) → List (Actor × Nat)
  | [] => []
  | x :: xs => insertByDist x (sortByDist xs)

/-- BaseAI.get_actors_in_fov: every other actor that is inside the observer's
field of view and belongs to a different faction, paired with its Chebyshev
distance from the observer and sorted by ascending distance.  The source
returns the distinguished pair (None, None) when no actor qualifies, which
this model renders as Option.none; the argument holds the actors other than
the observer (the source subtracts the observer object from the actor set). -/
def getActorsInFov (m : GameMap) (others : List Actor) (self : Actor) :
    Option (List (Actor × Nat)) :=
  let found := others.filterMap (fun t =>
    if getFov m self.pos t.pos && (t.faction != self.faction) then
      some (t, chebDist self.pos t.pos)
    else none)
  if found.isEmpty then none else some (sortByDist found)

/-- The four primitive actions a behavior policy can emit. -/
inductive GAction where
  | move (dx dy : Int)
  | melee (dx dy : Int)
  | wait
  | purify
deriving DecidableEq, Repr

/-- Whether an action is a Move. -/
def GAction.isMove : GAction → Bool
  | .move _ _ => true
  | _ => false

/-- The per-turn read-only inputs of a policy: the map and the entities
other than the acting one.  The source reads gamemap.actors for perception
and gamemap.entities for the cost grid; both are modelled by this one list,
with the acting entity itself prepended for the cost grid. -/
structure World where
  map : GameMap
  others : List Actor

/-- Private state of a HostileEnemy policy instance. -/
structure HostileState where
  path : List Cell
deriving DecidableEq, Repr

/-- HostileEnemy.__init__: an empty path. -/
def HostileState.init : HostileState := { path := [] }

/-- HostileEnemy.perform: wait when no non-ally is visible; melee the nearest
visible non-ally when it is at Chebyshev distance at most 1; otherwise
recompute the path to it and move one popped waypoint along it, waiting if
the path came back empty. -/
def hostilePerform (w : World) (self : Actor) (st : HostileState) :
    GAction × HostileState :=
  match getActorsInFov w.map w.others self with
  | none => (.wait, st)
  | some [] => (.wait, st)
  | some ((t, d) :: _) =>
    if d ≤ 1 then
      (.melee ((t.x : Int) - (self.x : Int)) ((t.y : Int) - (self.y : Int)), st)
    else
      match getPathTo w.map (self :: w.others) self.pos t.pos with
      | [] => (.wait, { st with path := [] })
      | c :: rest =>
        (.move ((c.1 : Int) - (self.x : Int)) ((c.2 : Int) - (self.y : Int)),
          { st with path := rest })

/-- Private state of an Orc policy instance: the in-flight path and the home
cell, initialised to the sentinel (-999, -999) meaning unset. -/
structure OrcState where
  path : List Cell
  home : Int × Int
deriving DecidableEq, Repr

/-- Orc.__init__: empty path, sentinel home. -/
def OrcState.init : OrcState := { path := [], home := (-999, -999) }

/-- Movement phase of Orc.perform, entered after the perception phase: with a
nonempty path, pop the first waypoint, move toward it and drop one further
waypoint; with an empty path, either pick a random walkable wander
destination when standing at home or path back home, and wait this turn.
The rand argument models the random.randint(0, len - 1) draw. -/
def orcMovePhase (w : World) (self : Actor) (st : OrcState) (rand : Nat) :
    GAction × OrcState :=
  match st.path with
  | c :: _ =>
    (.move ((c.1 : Int) - (self.x : Int)) ((c.2 : Int) - (self.y : Int)),
      { st with path := st.path.drop 2 })
  | [] =>
    if (((self.x : Int), (self.y : Int)) : Int × Int) = st.home then
      let ws := (allCells w.map).filter w.map.walkable
      let dest := ws.getD rand self.pos
      (.wait, { st with path := getPathTo w.map (self :: w.others) self.pos dest })
    else
      let homeCell : Cell := (st.home.1.toNat, st.home.2.toNat)
      (.wait, { st with path := getPathTo w.map (self :: w.others) self.pos homeCell })

/-- Orc.perform: set home on the first call, melee an adjacent visible
non-ally, recompute the path to a farther visible non-ally, then run the
movement phase. -/
def orcPerform (w : World) (self : Actor) (st0 : OrcState) (rand : Nat) :
    GAction × OrcState :=
  let st := if st0.home.1 = -999 then { st0 with home := ((self.x : Int), (self.y : Int)) }
    else st0
  match getActorsInFov w.map w.others self with
  | some ((t, d) :: _) =>
    if d ≤ 1 then
      (.melee ((t.x : Int) - (self.x : Int)) ((t.y : Int) - (self.y : Int)), st)
    else
      orcMovePhase w self { st with path := getPathTo w.map (self :: w.others) self.pos t.pos }
        rand
  | some [] => orcMovePhase w self st rand
  | none => orcMovePhase w self st rand

/-- Private state of a Troll policy instance, identical in shape to the Orc
state: in-flight path and sentinel-initialised home. -/
structure TrollState where
  path : List Cell
  home : Int × Int
deriving DecidableEq, Repr

/-- Troll.__init__: empty path, sentinel home. -/
def TrollState.init : TrollState := { path := [], home := (-999, -999) }

/-- Movement phase of Troll.perform: like the Orc movement phase except that
a Troll standing at home with an empty path simply waits instead of picking
a wander destination. -/
def trollMovePhase (w : World) (self : Actor) (st : TrollState) :
    GAction × TrollState :=
  match st.path with
  | c :: _ =>
    (.move ((c.1 : Int) - (self.x : Int)) ((c.2 : Int) - (self.y : Int)),
      { st with path := st.path.drop 2 })
  | [] =>
    if (((self.x : Int), (self.y : Int)) : Int × Int) = st.home then
      (.wait, st)
    else
      let homeCell : Cell := (st.home.1.toNat, st.home.2.toNat)
      (.wait, { st with path := getPathTo w.map (self :: w.others) self.pos homeCell })

/-- Troll.perform: set home on the first call, melee an adjacent visible
non-ally, recompute the path to a farther visible non-ally, then run the
movement phase. -/
def trollPerform (w : World) (self : Actor) (st0 : TrollState) :
    GAction × TrollState :=
  let st := if st0.home.1 = -999 then { st0 with home := ((self.x : Int), (self.y : Int)) }
    else st0
  match getActorsInFov w.map w.others self with
  | some ((t, d) :: _) =>
    if d ≤ 1 then
      (.melee ((t.x : Int) - (self.x : Int)) ((t.y : Int) - (self.y : Int)), st)
    else
      trollMovePhase w self { st with path := getPathTo w.map (self :: w.others) self.pos t.pos }
  | some [] => trollMovePhase w self st
  | none => trollMovePhase w self st

/-- Private state of an Animal policy instance: the in-flight wander path. -/
structure AnimalState where
  path : List Cell
deriving DecidableEq, Repr

/-- Animal.__init__: an empty path. -/
def AnimalState.init : AnimalState := { path := [] }

/-- The tail of Animal.perform reached when no non-ally is visible: purify a
corrupted tile underfoot, else follow the wander path (popping one waypoint
and dropping one more), else pick a random walkable wander destination and
wait.  The rand argument models the random.randint(0, len - 1) draw. -/
def animalNoTarget (w : World) (self : Actor) (st : AnimalState) (rand : Nat) :
    GAction × AnimalState :=
  if w.map.corrupted self.pos then (.purify, st)
  else
    match st.path with
    | c :: _ =>
      (.move ((c.1 : Int) - (self.x : Int)) ((c.2 : Int) - (self.y : Int)),
        { st with path := st.path.drop 2 })
    | [] =>
      let ws := (allCells w.map).filter w.map.walkable
      let dest := ws.getD rand self.pos
      (.wait, { st with path := getPathTo w.map (self :: w.others) self.pos dest })

/-- Animal.perform: flee one step from the nearest visible non-ally
(discarding any wander path), otherwise fall through to the no-target tail. -/
def animalPerform (w : World) (self : Actor) (st : AnimalState) (rand : Nat) :
    GAction × AnimalState :=
  match getActorsInFov w.map w.others self with
  | some ((t, _) :: _) =>
    (.move (-(((t.x : Int) - (self.x : Int)).sign)) (-(((t.y : Int) - (self.y : Int)).sign)),
      { st with path := [] })
  | some [] => animalNoTarget w self st rand
  | none => animalNoTarget w self st rand

/-- Fold a sequence of turns of the Orc policy over its private state; each
turn supplies the world snapshot, the acting entity and the random draw. -/
def orcRun (steps : List (World × Actor × Nat)) (st : OrcState) : OrcState :=
  steps.foldl (fun s i => (orcPerform i.1 i.2.1 s i.2.2).2) st

/-- Fold a sequence of turns of the Troll policy over its private state. -/
def trollRun (steps : List (World × Actor)) (st : TrollState) : TrollState :=
  steps.foldl (fun s i => (trollPerform i.1 i.2 s).2) st

/-- A 3 by 3 fully walkable, fully transparent test map. -/
def openMap : GameMap :=
  { width := 3, height := 3, walkable := fun _ => true, transparent := fun _ => true,
    corrupted := fun _ => false }

/-- An observer of faction 1 standing at (1, 1). -/
def obsOrc : Actor := { x := 1, y := 1, faction := 1, blocks_movement := true }

/-- A same-faction actor at (2, 1). -/
def allyActor : Actor := { x := 2, y := 1, faction := 1, blocks_movement := true }

/-- A hostile player-faction actor at (2, 1). -/
def foeRight : Actor := { x := 2, y := 1, faction := 0, blocks_movement := true }

/-- An observer of faction 1 standing at (0, 1). -/
def obsLeft : Actor := { x := 0, y := 1, faction := 1, blocks_movement := true }

/-- A faction-2 animal standing at (0, 1). -/
def animalLeft : Actor := { x := 0, y := 1, faction := 2, blocks_movement := true }

/-- A movement-blocking creature on the centre cell (1, 1). -/
def blockerMid : Actor := { x := 1, y := 1, faction := 0, blocks_movement := true }

lemma natsMin_eq_none {l : List Nat} : natsMin l = none ↔ l = [] := by
  cases l with
  | nil => simp [natsMin]
  | cons a rest =>
    simp only [natsMin]
    cases natsMin rest <;> simp

lemma natsMin_mem : ∀ {l : List Nat} {v : Nat}, natsMin l = some v → v ∈ l := by
  intro l
  induction l with
  | nil => intro v h; simp [natsMin] at h
  | cons a rest ih =>
    intro v h
    cases hr : natsMin rest with
    | none =>
      rw [natsMin, hr] at h
      simp at h
      simp [h]
    | some b =>
      rw [natsMin, hr] at h
      simp at h
      rcases le_total a b with hab | hab
      · rw [← h, min_eq_left hab]; exact List.mem_cons_self a rest
      · rw [← h, min_eq_right hab]; exact List.mem_cons_of_mem a (ih hr)

lemma natsMin_le : ∀ {l : List Nat} {v : Nat}, natsMin l = some v → ∀ a ∈ l, v ≤ a := by
  intro l
  induction l with
  | nil => intro v _ a ha; simp at ha
  | cons a rest ih =>
    intro v h x hx
    cases hr : natsMin rest with
    | none =>
      have hrest : rest = [] := natsMin_eq_none.mp hr
      subst hrest
      rw [natsMin] at h
      simp [natsMin] at h
      simp at hx
      omega
    | some b =>
      rw [natsMin, hr] at h
      simp at h
      rcases List.mem_cons.mp hx with heq | hx'
      · rw [heq, ← h]; exact min_le_left a b
      · have hvb : v ≤ b := h ▸ min_le_right a b
        exact le_trans hvb (ih hr x hx')

lemma natsMin_ne_none {l : List Nat} (h : l ≠ []) : ∃ v, natsMin l = some v := by
  cases l with
  | nil => exact absurd rfl h
  | cons a rest =>
    cases hr : natsMin rest with
    | none => exact ⟨a, by simp [natsMin, hr]⟩
    | some b => exact ⟨min a b, by simp [natsMin, hr]⟩

lemma mem_allCells {m : GameMap} {c : Cell} :
    c ∈ allCells m ↔ (c.1 < m.width ∧ c.2 < m.height) := by
  unfold allCells
  rw [List.mem_flatMap]
  constructor
  · rintro ⟨x, hx, hc⟩
    rcases List.mem_map.mp hc with ⟨y, hy, rfl⟩
    exact ⟨List.mem_range.mp hx, List.mem_range.mp hy⟩
  · rintro ⟨h1, h2⟩
    exact ⟨c.1, List.mem_range.mpr h1, List.mem_map.mpr ⟨c.2, List.mem_range.mpr h2, rfl⟩⟩

lemma allCells_nodup (m : GameMap) : (allCells m).Nodup := by
  unfold allCells
  rw [List.nodup_flatMap]
  refine ⟨fun x _ => ?_, ?_⟩
  · exact (List.nodup_range m.height).map (fun a b h => (Prod.mk.injEq x a x b).mp h |>.2)
  · refine (List.nodup_range m.width).pairwise_of_forall_ne (fun x hx y hy hxy => ?_)
    intro c hcx hcy
    rcases List.mem_map.mp hcx with ⟨u, _, rfl⟩
    rcases List.mem_map.mp hcy with ⟨v, _, hv⟩
    exact hxy ((Prod.mk.injEq x u y v).mp hv.symm).1

lemma cellCost_ne_zero_mem {m : GameMap} {ents : List Actor} {c : Cell}
    (h : cellCost m ents c ≠ 0) : c ∈ allCells m := by
  rw [mem_allCells]
  by_cases hb : (inGrid m c && m.walkable c) = true
  · have hg : inGrid m c = true := ((Bool.and_eq_true _ _).mp hb).1
    simpa [inGrid] using hg
  · unfold cellCost at h
    simp [hb] at h

lemma traversable_cost_pos {m : GameMap} {ents : List Actor} {c : Cell}
    (h : cellCost m ents c ≠ 0) : 1 ≤ cellCost m ents c := Nat.one_le_iff_ne_zero.mpr h

/-- A step into a traversable cell costs at least 2. -/
lemma moveCost_ge_two {m : GameMap} {ents : List Actor} {a b : Cell}
    (h : cellCost m ents b ≠ 0) : 2 ≤ moveCost m ents a b := by
  unfold moveCost
  have h1 := traversable_cost_pos h
  by_cases hd : isDiag a b = true <;> simp [hd] <;> omega

lemma lookupDist_filterMap_not_mem (g : Cell → Option Nat) (cs : List Cell) (c : Cell)
    (h : c ∉ cs) :
    lookupDist (cs.filterMap (fun x => (g x).map (fun v => (x, v)))) c = none := by
  induction cs with
  | nil => rfl
  | cons a tl ih =>
    have hne : c ≠ a := fun he => h (he ▸ List.mem_cons_self a tl)
    have htl : c ∉ tl := fun he => h (List.mem_cons_of_mem a he)
    rw [List.filterMap_cons]
    cases g a with
    | none => exact ih htl
    | some v =>
      unfold lookupDist
      simp only [Option.map_some']
      rw [List.find?_cons_of_neg]
      · exact ih htl
      · simp [hne.symm]

lemma lookupDist_filterMap_mem (g : Cell → Option Nat) (cs : List Cell) (c : Cell)
    (hnd : cs.Nodup) (hc : c ∈ cs) :
    lookupDist (cs.filterMap (fun x => (g x).map (fun v => (x, v)))) c = g c := by
  induction cs with
  | nil => simp at hc
  | cons a tl ih =>
    have hnd' := List.nodup_cons.mp hnd
    rw [List.filterMap_cons]
    by_cases hca : c = a
    · subst hca
      cases hg : g c with
      | none => exact (lookupDist_filterMap_not_mem g tl c hnd'.1)
      | some v =>
        unfold lookupDist
        simp only [Option.map_some']
        rw [List.find?_cons_of_pos]
        · rfl
        · simp
    · have hctl : c ∈ tl := (List.mem_cons.mp hc).resolve_left hca
      cases hg : g a with
      | none => exact ih hnd'.2 hctl
      | some v =>
        unfold lookupDist
        simp only [Option.map_some']
        rw [List.find?_cons_of_neg]
        · exact ih hnd'.2 hctl
        · simp
          exact fun he => hca he.symm

lemma lookupDist_relaxRound_mem {m : GameMap} {ents : List Actor} {origin : Cell}
    {dist : List (Cell × Nat)} {c : Cell} (h : c ∈ allCells m) :
    lookupDist (relaxRound m ents origin dist) c = relaxCell m ents origin dist c :=
  lookupDist_filterMap_mem (relaxCell m ents origin dist) (allCells m) c (allCells_nodup m) h

lemma lookupDist_relaxRound_not_mem {m : GameMap} {ents : List Actor} {origin : Cell}
    {dist : List (Cell × Nat)} {c : Cell} (h : c ∉ allCells m) :
    lookupDist (relaxRound m ents origin dist) c = none :=
  lookupDist_filterMap_not_mem (relaxCell m ents origin dist) (allCells m) c h

lemma bfIter_succ (m : GameMap) (ents : List Actor) (origin : Cell) (k : Nat) :
    bfIter m ents origin (k + 1) = relaxRound m ents origin (bfIter m ents origin k) := rfl

lemma endAt_nil (o : Cell) : endAt o [] = o := rfl

lemma endAt_cons (o a : Cell) (p : List Cell) : endAt o (a :: p) = endAt a p := by
  unfold endAt
  exact List.getLastD_cons o a p

lemma endAt_concat (o c : Cell) (p : List Cell) : endAt o (p ++ [c]) = c := by
  unfold endAt
  exact List.getLastD_concat o c p

lemma endAt_append (o : Cell) (u v : List Cell) :
    endAt o (u ++ v) = endAt (endAt o u) v := by
  induction u generalizing o with
  | nil => rfl
  | cons a u' ih =>
    rw [List.cons_append, endAt_cons, endAt_cons]
    exact ih a

lemma validPath_append {m : GameMap} {ents : List Actor} (o : Cell) (u v : List Cell) :
    ValidPath m ents o (u ++ v) ↔ ValidPath m ents o u ∧ ValidPath m ents (endAt o u) v := by
  unfold ValidPath
  induction u generalizing o with
  | nil => simp [endAt_nil]
  | cons a u' ih =>
    rw [List.cons_append, List.chain_cons, List.chain_cons, endAt_cons]
    rw [ih a]
    tauto

lemma validPath_concat {m : GameMap} {ents : List Actor} (o c : Cell) (p : List Cell) :
    ValidPath m ents o (p ++ [c]) ↔ ValidPath m ents o p ∧ Step m ents (endAt o p) c := by
  rw [validPath_append]
  unfold ValidPath
  rw [List.chain_cons]
  simp [List.Chain.nil]

lemma costFrom_nil (m : GameMap) (ents : List Actor) (s : Cell) :
    costFrom m ents s [] = 0 := rfl

lemma costFrom_cons (m : GameMap) (ents : List Actor) (s c : Cell) (rest : List Cell) :
    costFrom m ents s (c :: rest) = moveCost m ents s c + costFrom m ents c rest := rfl

lemma costFrom_append (m : GameMap) (ents : List Actor) (o : Cell) (u v : List Cell) :
    costFrom m ents o (u ++ v) = costFrom m ents o u + costFrom m ents (endAt o u) v := by
  induction u generalizing o with
  | nil => simp [costFrom_nil, endAt_nil]
  | cons a u' ih =>
    rw [List.cons_append, costFrom_cons, costFrom_cons, endAt_cons, ih a]
    omega

lemma costFrom_concat (m : GameMap) (ents : List Actor) (o c : Cell) (p : List Cell) :
    costFrom m ents o (p ++ [c]) = costFrom m ents o p + moveCost m ents (endAt o p) c := by
  rw [costFrom_append, costFrom_cons, costFrom_nil]
  omega

lemma validPath_mem_cost {m : GameMap} {ents : List Actor} {o : Cell} {p : List Cell}
    (h : ValidPath m ents o p) : ∀ c ∈ p, cellCost m ents c ≠ 0 := by
  induction p generalizing o with
  | nil => simp
  | cons a p' ih =>
    unfold ValidPath at h
    rw [List.chain_cons] at h
    intro c hc
    rcases List.mem_cons.mp hc with heq | hc'
    · exact heq ▸ h.1.2
    · exact ih h.2 c hc'

lemma endAt_mem {o : Cell} {p : List Cell} (h : p ≠ []) : endAt o p ∈ p := by
  induction p generalizing o with
  | nil => exact absurd rfl h
  | cons a rest ih =>
    cases rest with
    | nil => simp [endAt, List.getLastD]
    | cons b t =>
      rw [endAt_cons]
      exact List.mem_cons_of_mem a (ih (by simp))

lemma lookupDist_nil (c : Cell) : lookupDist [] c = none := rfl

lemma bf_keys {m : GameMap} {ents : List Actor} {origin : Cell} :
    ∀ {k : Nat} {c : Cell} {v : Nat},
      lookupDist (bfIter m ents origin k) c = some v → c ∈ allCells m := by
  intro k
  cases k with
  | zero => intro c v h; rw [bfIter, iterN, lookupDist_nil] at h; exact absurd h (by simp)
  | succ k =>
    intro c v h
    by_cases hc : c ∈ allCells m
    · exact hc
    · rw [bfIter_succ, lookupDist_relaxRound_not_mem hc] at h
      exact absurd h (by simp)

lemma relaxCell_base_nonempty_some {m : GameMap} {ents : List Actor} {origin : Cell}
    {dist : List (Cell × Nat)} {c : Cell} {x : Nat}
    (hx : x ∈ (if c = origin then [0] else []) ++ (lookupDist dist c).toList
      ++ relaxCands m ents dist c) :
    ∃ v, relaxCell m ents origin dist c = some v ∧ v ≤ x := by
  unfold relaxCell
  obtain ⟨v, hv⟩ := natsMin_ne_none (List.ne_nil_of_mem hx)
  exact ⟨v, hv, natsMin_le hv x hx⟩

lemma bf_origin_zero {m : GameMap} {ents : List Actor} {origin : Cell}
    (ho : origin ∈ allCells m) (k : Nat) :
    lookupDist (bfIter m ents origin (k + 1)) origin = some 0 := by
  rw [bfIter_succ, lookupDist_relaxRound_mem ho]
  have hx : (0 : Nat) ∈ (if origin = origin then [0] else [])
      ++ (lookupDist (bfIter m ents origin k) origin).toList
      ++ relaxCands m ents (bfIter m ents origin k) origin := by
    simp
  obtain ⟨v, hv, hle⟩ := relaxCell_base_nonempty_some hx
  rw [hv, Nat.le_zero.mp hle]

lemma relaxCands_mem {m : GameMap} {ents : List Actor} {dist : List (Cell × Nat)}
    {c : Cell} {x : Nat} (hx : x ∈ relaxCands m ents dist c) :
    cellCost m ents c ≠ 0 ∧
      ∃ n ∈ allCells m, adjacentB n c = true ∧
        ∃ dn, lookupDist dist n = some dn ∧ x = dn + moveCost m ents n c := by
  unfold relaxCands at hx
  by_cases hz : (cellCost m ents c == 0) = true
  · simp [hz] at hx
  · have hz' : cellCost m ents c ≠ 0 := by simpa using hz
    rw [if_neg hz] at hx
    refine ⟨hz', ?_⟩
    rcases List.mem_filterMap.mp hx with ⟨n, hn, hfn⟩
    by_cases ha : adjacentB n c = true
    · rw [if_pos ha] at hfn
      cases hl : lookupDist dist n with
      | none => rw [hl] at hfn; exact absurd hfn (by simp)
      | some dn =>
        rw [hl] at hfn
        simp at hfn
        exact ⟨n, hn, ha, dn, hl, hfn.symm⟩
    · rw [if_neg ha] at hfn
      exact absurd hfn (by simp)

lemma relaxCands_mem_of {m : GameMap} {ents : List Actor} {dist : List (Cell × Nat)}
    {c n : Cell} {dn : Nat} (hz : cellCost m ents c ≠ 0) (hn : n ∈ allCells m)
    (ha : adjacentB n c = true) (hl : lookupDist dist n = some dn) :
    dn + moveCost m ents n c ∈ relaxCands m ents dist c := by
  unfold relaxCands
  rw [if_neg (by simpa using hz)]
  exact List.mem_filterMap.mpr ⟨n, hn, by rw [if_pos ha, hl]; rfl⟩

lemma bf_sound {m : GameMap} {ents : List Actor} {origin : Cell} :
    ∀ {k : Nat} {c : Cell} {v : Nat},
      lookupDist (bfIter m ents origin k) c = some v →
      ∃ p, ValidPath m ents origin p ∧ endAt origin p = c ∧
        costFrom m ents origin p = v ∧ p.length ≤ k := by
  intro k
  induction k with
  | zero =>
    intro c v h
    rw [bfIter, iterN, lookupDist_nil] at h
    exact absurd h (by simp)
  | succ k ih =>
    intro c v h
    have hc : c ∈ allCells m := bf_keys h
    rw [bfIter_succ, lookupDist_relaxRound_mem hc] at h
    have hv := natsMin_mem h
    rcases List.mem_append.mp hv with hv1 | hv2
    · rcases List.mem_append.mp hv1 with hv0 | hvold
      · by_cases hco : c = origin
        · rw [if_pos hco] at hv0
          simp at hv0
          refine ⟨[], List.Chain.nil, by rw [endAt_nil, hco], by rw [costFrom_nil, hv0], ?_⟩
          simp
        · rw [if_neg hco] at hv0
          exact absurd hv0 (by simp)
      · have hold : lookupDist (bfIter m ents origin k) c = some v := by
          cases hl : lookupDist (bfIter m ents origin k) c with
          | none => rw [hl] at hvold; simp [Option.toList] at hvold
          | some w =>
            rw [hl] at hvold
            simp [Option.toList] at hvold
            rw [hvold]
        obtain ⟨p, h1, h2, h3, h4⟩ := ih hold
        exact ⟨p, h1, h2, h3, Nat.le_succ_of_le h4⟩
    · obtain ⟨hz, n, _, ha, dn, hl, hx⟩ := relaxCands_mem hv2
      obtain ⟨pn, h1, h2, h3, h4⟩ := ih hl
      refine ⟨pn ++ [c], ?_, endAt_concat _ _ _, ?_, ?_⟩
      · rw [validPath_concat]
        exact ⟨h1, h2 ▸ ⟨ha, hz⟩⟩
      · rw [costFrom_concat, h3, h2, hx]
      · rw [List.length_append]
        simpa using h4

lemma bf_mono {m : GameMap} {ents : List Actor} {origin : Cell} {k : Nat} {c : Cell}
    {x : Nat} (h : lookupDist (bfIter m ents origin k) c = some x) :
    ∃ v, lookupDist (bfIter m ents origin (k + 1)) c = some v ∧ v ≤ x := by
  have hc : c ∈ allCells m := bf_keys h
  rw [bfIter_succ, lookupDist_relaxRound_mem hc]
  apply relaxCell_base_nonempty_some
  rw [h]
  simp [Option.toList]

lemma bf_mono_many {m : GameMap} {ents : List Actor} {origin : Cell} {k : Nat} {c : Cell}
    {x : Nat} (h : lookupDist (bfIter m ents origin k) c = some x) :
    ∀ j, k ≤ j → ∃ v, lookupDist (bfIter m ents origin j) c = some v ∧ v ≤ x := by
  intro j hj
  induction j, hj using Nat.le_induction with
  | base => exact ⟨x, h, le_rfl⟩
  | succ j hkj ih =>
    obtain ⟨v, hv, hle⟩ := ih
    obtain ⟨v', hv', hle'⟩ := bf_mono hv
    exact ⟨v', hv', le_trans hle' hle⟩

lemma bf_relax_step {m : GameMap} {ents : List Actor} {origin : Cell} {k : Nat}
    {c n : Cell} {dn : Nat} (hz : cellCost m ents c ≠ 0) (hn : n ∈ allCells m)
    (ha : adjacentB n c = true) (hl : lookupDist (bfIter m ents origin k) n = some dn) :
    ∃ v, lookupDist (bfIter m ents origin (k + 1)) c = some v ∧
      v ≤ dn + moveCost m ents n c := by
  have hc : c ∈ allCells m := cellCost_ne_zero_mem hz
  rw [bfIter_succ, lookupDist_relaxRound_mem hc]
  apply relaxCell_base_nonempty_some
  apply List.mem_append.mpr
  right
  exact relaxCands_mem_of hz hn ha hl

lemma bf_complete {m : GameMap} {ents : List Actor} {origin : Cell}
    (ho : origin ∈ allCells m) :
    ∀ (k : Nat) (p : List Cell), ValidPath m ents origin p → p.length ≤ k →
      ∃ v, lookupDist (bfIter m ents origin (k + 1)) (endAt origin p) = some v ∧
        v ≤ costFrom m ents origin p := by
  intro k
  induction k with
  | zero =>
    intro p hp hlen
    have hpn : p = [] := List.length_eq_zero.mp (Nat.le_zero.mp hlen)
    subst hpn
    exact ⟨0, by rw [endAt_nil]; exact bf_origin_zero ho 0, by rw [costFrom_nil]⟩
  | succ k ih =>
    intro p hp hlen
    by_cases hsh : p.length ≤ k
    · obtain ⟨v, hv, hle⟩ := ih p hp hsh
      obtain ⟨v', hv', hle'⟩ := bf_mono hv
      exact ⟨v', hv', le_trans hle' hle⟩
    · rcases List.eq_nil_or_concat p with rfl | ⟨q, c, rfl⟩
      · simp at hsh
      · rw [List.concat_eq_append] at hp hlen ⊢
        rw [validPath_concat] at hp
        have hqlen : q.length ≤ k := by
          rw [List.length_append] at hlen
          simpa using hlen
        obtain ⟨v, hv, hle⟩ := ih q hp.1 hqlen
        have hstep := hp.2
        have hn : endAt origin q ∈ allCells m := by
          cases q with
          | nil => rw [endAt_nil]; exact ho
          | cons a t =>
            apply cellCost_ne_zero_mem
            exact validPath_mem_cost hp.1 _ (endAt_mem (by simp))
        obtain ⟨v', hv', hle'⟩ := bf_relax_step hstep.2 hn hstep.1 hv
        refine ⟨v', by rw [endAt_concat]; exact hv', ?_⟩
        rw [costFrom_concat]
        exact le_trans hle' (by omega)

lemma dup_split {α : Type} {l : List α} (h : ¬ l.Nodup) :
    ∃ (l₁ : List α) (a : α) (l₂ l₃ : List α), l = l₁ ++ a :: (l₂ ++ a :: l₃) := by
  induction l with
  | nil => exact absurd List.nodup_nil h
  | cons x t ih =>
    by_cases hx : x ∈ t
    · obtain ⟨s, u, rfl⟩ := List.append_of_mem hx
      exact ⟨[], x, s, u, by simp⟩
    · have ht : ¬ t.Nodup := fun hnd => h (List.nodup_cons.mpr ⟨hx, hnd⟩)
      obtain ⟨l₁, a, l₂, l₃, rfl⟩ := ih ht
      exact ⟨x :: l₁, a, l₂, l₃, by simp⟩

lemma allCells_length (m : GameMap) : (allCells m).length = m.width * m.height := by
  unfold allCells
  rw [List.length_flatMap]
  have hmap : List.map (List.length ∘ fun x => (List.range m.height).map (fun y => (x, y)))
      (List.range m.width) = List.map (fun _ => m.height) (List.range m.width) := by
    apply List.map_congr_left
    intro x _
    simp
  rw [hmap, List.map_const', List.sum_replicate, List.length_range, smul_eq_mul]

/-- A duplicate-free valid path (origin included) fits inside the cell list. -/
lemma nodup_path_length {m : GameMap} {ents : List Actor} {origin : Cell} {p : List Cell}
    (ho : origin ∈ allCells m) (hp : ValidPath m ents origin p)
    (hnd : (origin :: p).Nodup) : p.length + 1 ≤ m.width * m.height := by
  have hsub : ∀ x ∈ origin :: p, x ∈ allCells m := by
    intro x hx
    rcases List.mem_cons.mp hx with heq | hxp
    · exact heq ▸ ho
    · exact cellCost_ne_zero_mem (validPath_mem_cost hp x hxp)
  have h1 : (origin :: p).toFinset.card = p.length + 1 := by
    rw [List.toFinset_card_of_nodup hnd]
    simp
  have h2 : (origin :: p).toFinset ⊆ (allCells m).toFinset := by
    intro x hx
    exact List.mem_toFinset.mpr (hsub x (List.mem_toFinset.mp hx))
  have h3 : (allCells m).toFinset.card = m.width * m.height := by
    rw [List.toFinset_card_of_nodup (allCells_nodup m), allCells_length]
  calc p.length + 1 = (origin :: p).toFinset.card := h1.symm
    _ ≤ (allCells m).toFinset.card := Finset.card_le_card h2
    _ = m.width * m.height := h3

/-- Remove one cycle from a valid path: the endpoint is preserved and the
cost does not increase. -/
lemma shorten_cut {m : GameMap} {ents : List Actor} {origin a : Cell}
    {u l₂ l₃ : List Cell} (hu : endAt origin u = a)
    (hp : ValidPath m ents origin (u ++ ((l₂ ++ [a]) ++ l₃))) :
    ValidPath m ents origin (u ++ l₃) ∧
      endAt origin (u ++ ((l₂ ++ [a]) ++ l₃)) = endAt origin (u ++ l₃) ∧
      costFrom m ents origin (u ++ l₃) ≤ costFrom m ents origin (u ++ ((l₂ ++ [a]) ++ l₃)) := by
  rw [validPath_append, validPath_append (endAt origin u)] at hp
  rw [endAt_concat] at hp
  refine ⟨?_, ?_, ?_⟩
  · rw [validPath_append]
    exact ⟨hp.1, hu ▸ hp.2.2⟩
  · have e1 : endAt origin (u ++ ((l₂ ++ [a]) ++ l₃))
        = endAt (endAt (endAt origin u) (l₂ ++ [a])) l₃ := by
      rw [endAt_append origin u ((l₂ ++ [a]) ++ l₃),
        endAt_append (endAt origin u) (l₂ ++ [a]) l₃]
    rw [e1, endAt_concat, endAt_append origin u l₃, hu]
  · have c1 : costFrom m ents origin (u ++ ((l₂ ++ [a]) ++ l₃))
        = costFrom m ents origin u + (costFrom m ents (endAt origin u) (l₂ ++ [a])
          + costFrom m ents (endAt (endAt origin u) (l₂ ++ [a])) l₃) := by
      rw [costFrom_append m ents origin u ((l₂ ++ [a]) ++ l₃),
        costFrom_append m ents (endAt origin u) (l₂ ++ [a]) l₃]
    have c2 : costFrom m ents origin (u ++ l₃)
        = costFrom m ents origin u + costFrom m ents (endAt origin u) l₃ :=
      costFrom_append m ents origin u l₃
    rw [c1, c2, endAt_concat, hu]
    omega

lemma shorten {m : GameMap} {ents : List Actor} {origin : Cell} :
    ∀ (len : Nat) (p : List Cell), p.length ≤ len → ValidPath m ents origin p →
      ∃ q, ValidPath m ents origin q ∧ endAt origin q = endAt origin p ∧
        costFrom m ents origin q ≤ costFrom m ents origin p ∧ (origin :: q).Nodup := by
  intro len
  induction len with
  | zero =>
    intro p hlen hp
    have hpn : p = [] := List.length_eq_zero.mp (Nat.le_zero.mp hlen)
    subst hpn
    exact ⟨[], List.Chain.nil, rfl, le_rfl, by simp⟩
  | succ len ih =>
    intro p hlen hp
    by_cases hnd : (origin :: p).Nodup
    · exact ⟨p, hp, rfl, le_rfl, hnd⟩
    · obtain ⟨l₁, a, l₂, l₃, hsplit⟩ := dup_split hnd
      cases l₁ with
      | nil =>
        simp only [List.nil_append] at hsplit
        have ho : origin = a := (List.cons.injEq _ _ _ _).mp hsplit |>.1
        have hpe : p = ([] : List Cell) ++ ((l₂ ++ [a]) ++ l₃) := by
          have h2 := (List.cons.injEq _ _ _ _).mp hsplit |>.2
          rw [List.nil_append, List.append_assoc, List.singleton_append]
          exact h2
        have hu : endAt origin ([] : List Cell) = a := by rw [endAt_nil, ho]
        obtain ⟨h1, h2, h3⟩ := shorten_cut hu (hpe ▸ hp)
        rw [List.nil_append] at h1
        have hlen3 : l₃.length ≤ len := by
          have := congrArg List.length hpe
          simp at this
          omega
        obtain ⟨q, hq1, hq2, hq3, hq4⟩ := ih l₃ hlen3 h1
        refine ⟨q, hq1, ?_, ?_, hq4⟩
        · rw [hq2, hpe, h2, List.nil_append]
        · calc costFrom m ents origin q ≤ costFrom m ents origin l₃ := hq3
            _ ≤ costFrom m ents origin p := by
              rw [hpe]
              simpa using h3
      | cons x t =>
        have hox : origin = x := (List.cons.injEq _ _ _ _).mp hsplit |>.1
        have hpe : p = (t ++ [a]) ++ ((l₂ ++ [a]) ++ l₃) := by
          have h2 := (List.cons.injEq _ _ _ _).mp hsplit |>.2
          rw [List.append_assoc, List.singleton_append, List.append_assoc,
            List.singleton_append]
          exact h2
        have hu : endAt origin (t ++ [a]) = a := endAt_concat _ _ _
        obtain ⟨h1, h2, h3⟩ := shorten_cut hu (hpe ▸ hp)
        have hlen3 : ((t ++ [a]) ++ l₃).length ≤ len := by
          have := congrArg List.length hpe
          simp at this
          simp
          omega
        obtain ⟨q, hq1, hq2, hq3, hq4⟩ := ih _ hlen3 h1
        refine ⟨q, hq1, ?_, ?_, hq4⟩
        · rw [hq2, hpe, h2]
        · calc costFrom m ents origin q ≤ costFrom m ents origin ((t ++ [a]) ++ l₃) := hq3
            _ ≤ costFrom m ents origin p := hpe ▸ h3

/-- The final table holds, for the endpoint of any valid path, a value no
larger than that path's cost. -/
lemma bf_opt {m : GameMap} {ents : List Actor} {origin : Cell}
    (ho : origin ∈ allCells m) {p : List Cell} (hp : ValidPath m ents origin p) :
    ∃ v, lookupDist (bfDist m ents origin) (endAt origin p) = some v ∧
      v ≤ costFrom m ents origin p := by
  obtain ⟨q, hq1, hq2, hq3, hq4⟩ := shorten p.length p le_rfl hp
  have hqlen : q.length ≤ m.width * m.height := by
    have := nodup_path_length ho hq1 hq4
    omega
  obtain ⟨v, hv, hle⟩ := bf_complete ho (m.width * m.height) q hq1 hqlen
  exact ⟨v, hq2 ▸ hv, le_trans hle hq3⟩

/-- The final table value at a cell is a lower bound on the cost of every
valid path ending there. -/
lemma bfDist_le {m : GameMap} {ents : List Actor} {origin : Cell} {c : Cell} {dc : Nat}
    (ho : origin ∈ allCells m) (hc : lookupDist (bfDist m ents origin) c = some dc)
    {p : List Cell} (hp : ValidPath m ents origin p) (hend : endAt origin p = c) :
    dc ≤ costFrom m ents origin p := by
  obtain ⟨v, hv, hle⟩ := bf_opt ho hp
  rw [hend, hc] at hv
  have hdv : dc = v := by simpa using hv
  rw [hdv]
  exact hle

/-- Soundness of the final table, specialised from bf_sound. -/
lemma bfDist_sound {m : GameMap} {ents : List Actor} {origin : Cell} {c : Cell} {dc : Nat}
    (hc : lookupDist (bfDist m ents origin) c = some dc) :
    ∃ p, ValidPath m ents origin p ∧ endAt origin p = c ∧
      costFrom m ents origin p = dc ∧ p.length ≤ m.width * m.height + 1 :=
  bf_sound hc

lemma bfDist_origin {m : GameMap} {ents : List Actor} {origin : Cell}
    (ho : origin ∈ allCells m) :
    lookupDist (bfDist m ents origin) origin = some 0 :=
  bf_origin_zero ho (m.width * m.height)

/-- A non-origin cell with a final distance is traversable. -/
lemma bfDist_cost_ne_zero {m : GameMap} {ents : List Actor} {origin : Cell} {c : Cell}
    {dc : Nat} (hc : lookupDist (bfDist m ents origin) c = some dc) (hne : c ≠ origin) :
    cellCost m ents c ≠ 0 := by
  obtain ⟨p, hp, hend, _, _⟩ := bfDist_sound hc
  cases hpn : p with
  | nil => rw [hpn, endAt_nil] at hend; exact absurd hend.symm hne
  | cons a t =>
    apply validPath_mem_cost hp
    rw [← hend, hpn]
    exact endAt_mem (by simp)

/-- At the final table, every reachable non-origin cell has a predecessor
found by stepBack, with a strictly smaller distance. -/
lemma stepBack_spec {m : GameMap} {ents : List Actor} {origin : Cell} {c : Cell} {dc : Nat}
    (ho : origin ∈ allCells m) (hc : lookupDist (bfDist m ents origin) c = some dc)
    (hne : c ≠ origin) :
    ∃ n dn, stepBack m ents (bfDist m ents origin) c = some n ∧ adjacentB n c = true ∧
      lookupDist (bfDist m ents origin) n = some dn ∧
      dn + moveCost m ents n c = dc ∧ dn < dc := by
  obtain ⟨p, hp, hend, hcost, hplen⟩ := bfDist_sound hc
  rcases List.eq_nil_or_concat p with rfl | ⟨q, b, rfl⟩
  · rw [endAt_nil] at hend
    exact absurd hend.symm hne
  · rw [List.concat_eq_append] at hp hend hcost hplen
    rw [endAt_concat] at hend
    rw [hend] at hp hcost hplen
    rw [validPath_concat] at hp
    have hstep := hp.2
    have hn0 : endAt origin q ∈ allCells m := by
      cases q with
      | nil => rw [endAt_nil]; exact ho
      | cons a t =>
        apply cellCost_ne_zero_mem
        exact validPath_mem_cost hp.1 _ (endAt_mem (by simp))
    have hqlen : q.length ≤ m.width * m.height := by
      rw [List.length_append] at hplen
      simp at hplen
      omega
    obtain ⟨vn, hvn0, hvnle⟩ := bf_complete ho (m.width * m.height) q hp.1 hqlen
    have hvn : lookupDist (bfDist m ents origin) (endAt origin q) = some vn := hvn0
    have hup : vn + moveCost m ents (endAt origin q) c ≤ dc := by
      rw [costFrom_concat] at hcost
      omega
    have hlow : dc ≤ vn + moveCost m ents (endAt origin q) c := by
      obtain ⟨pn, hpn1, hpn2, hpn3, _⟩ := bfDist_sound hvn
      have hvalid : ValidPath m ents origin (pn ++ [c]) := by
        rw [validPath_concat]
        exact ⟨hpn1, hpn2 ▸ hstep⟩
      have := bfDist_le ho hc hvalid (endAt_concat _ _ _)
      rw [costFrom_concat, hpn3, hpn2] at this
      exact this
    have heq : vn + moveCost m ents (endAt origin q) c = dc := le_antisymm hup hlow
    have hpred : (fun n => adjacentB n c &&
        match lookupDist (bfDist m ents origin) n, lookupDist (bfDist m ents origin) c with
        | some dn, some dc => dn + moveCost m ents n c == dc
        | _, _ => false) (endAt origin q) = true := by
      rw [Bool.and_eq_true]
      refine ⟨hstep.1, ?_⟩
      rw [hvn, hc]
      simpa using heq
    have hsome : (stepBack m ents (bfDist m ents origin) c).isSome := by
      unfold stepBack
      exact List.find?_isSome.mpr ⟨endAt origin q, hn0, hpred⟩
    cases hfind : stepBack m ents (bfDist m ents origin) c with
    | none => rw [hfind] at hsome; simp at hsome
    | some n' =>
      have hpred' := List.find?_some hfind
      rw [Bool.and_eq_true] at hpred'
      have hadj : adjacentB n' c = true := hpred'.1
      have hmatch := hpred'.2
      cases hln : lookupDist (bfDist m ents origin) n' with
      | none => rw [hln, hc] at hmatch; simp at hmatch
      | some dn' =>
        rw [hln, hc] at hmatch
        have heq' : dn' + moveCost m ents n' c = dc := by simpa using hmatch
        refine ⟨n', dn', rfl, hadj, hln, heq', ?_⟩
        have hmc : 2 ≤ moveCost m ents n' c :=
          moveCost_ge_two (bfDist_cost_ne_zero hc hne)
        omega

lemma recon_succ (m : GameMap) (ents : List Actor) (origin : Cell)
    (dist : List (Cell × Nat)) (fuel : Nat) (c : Cell) (acc : List Cell) :
    recon m ents origin dist (fuel + 1) c acc =
      if c = origin then acc
      else
        match stepBack m ents dist c with
        | some n => recon m ents origin dist fuel n (c :: acc)
        | none => [] := rfl

lemma findPath_eq_of_eq (m : GameMap) (ents : List Actor) {origin dest : Cell}
    (h : origin = dest) : findPath m ents origin dest = [] := by
  unfold findPath
  rw [if_pos h]

lemma findPath_eq_of_none (m : GameMap) (ents : List Actor) {origin dest : Cell}
    (hod : ¬ origin = dest) (hl : lookupDist (bfDist m ents origin) dest = none) :
    findPath m ents origin dest = [] := by
  unfold findPath
  rw [if_neg hod, hl]

lemma findPath_eq_of_some (m : GameMap) (ents : List Actor) {origin dest : Cell} {dc : Nat}
    (hod : ¬ origin = dest) (hl : lookupDist (bfDist m ents origin) dest = some dc) :
    findPath m ents origin dest
      = recon m ents origin (bfDist m ents origin) (dc + 1) dest [] := by
  unfold findPath
  rw [if_neg hod, hl]

/-- Correctness of the backward reconstruction at the final table. -/
lemma recon_spec {m : GameMap} {ents : List Actor} {origin : Cell}
    (ho : origin ∈ allCells m) :
    ∀ (fuel dc : Nat), dc < fuel → ∀ (c : Cell) (acc : List Cell),
      lookupDist (bfDist m ents origin) c = some dc →
      ∃ p, recon m ents origin (bfDist m ents origin) fuel c acc = p ++ acc ∧
        ValidPath m ents origin p ∧ endAt origin p = c ∧
        costFrom m ents origin p = dc ∧ origin ∉ p := by
  intro fuel
  induction fuel with
  | zero => intro dc h; omega
  | succ fuel ih =>
    intro dc hfuel c acc hc
    by_cases hco : c = origin
    · have h0 : lookupDist (bfDist m ents origin) c = some 0 := by
        rw [hco]
        exact bfDist_origin ho
      rw [hc] at h0
      have hdc : dc = 0 := by simpa using h0
      refine ⟨[], ?_, List.Chain.nil, by rw [endAt_nil, hco], by rw [costFrom_nil, hdc],
        by simp⟩
      rw [recon_succ, if_pos hco, List.nil_append]
    · obtain ⟨n', dn', hfind, hadj, hln, heq, hlt⟩ := stepBack_spec ho hc hco
      obtain ⟨pn, hrec, hv, hend, hcost, hnotin⟩ :=
        ih dn' (by omega) n' (c :: acc) hln
      refine ⟨pn ++ [c], ?_, ?_, endAt_concat _ _ _, ?_, ?_⟩
      · rw [recon_succ, if_neg hco, hfind]
        show recon m ents origin (bfDist m ents origin) fuel n' (c :: acc)
          = (pn ++ [c]) ++ acc
        rw [hrec, List.append_assoc, List.singleton_append]
      · rw [validPath_concat]
        exact ⟨hv, hend ▸ ⟨hadj, bfDist_cost_ne_zero hc hco⟩⟩
      · rw [costFrom_concat, hcost, hend, heq]
      · rw [List.mem_append]
        rintro (h1 | h2)
        · exact hnotin h1
        · simp at h2
          exact hco h2.symm

/-- A nonempty result of findPath is a valid minimum-cost path from the
origin to the destination that never revisits the origin. -/
lemma findPath_spec {m : GameMap} {ents : List Actor} {origin dest : Cell}
    (ho : origin ∈ allCells m) (hne : findPath m ents origin dest ≠ []) :
    ValidPath m ents origin (findPath m ents origin dest) ∧
      endAt origin (findPath m ents origin dest) = dest ∧
      origin ∉ findPath m ents origin dest ∧
      ∀ q, ValidPath m ents origin q → endAt origin q = dest →
        costFrom m ents origin (findPath m ents origin dest) ≤ costFrom m ents origin q := by
  by_cases hod : origin = dest
  · exact absurd (findPath_eq_of_eq m ents hod) hne
  · cases hl : lookupDist (bfDist m ents origin) dest with
    | none => exact absurd (findPath_eq_of_none m ents hod hl) hne
    | some dc =>
      obtain ⟨p, hrec, hv, hend, hcost, hnotin⟩ :=
        recon_spec ho (dc + 1) dc (by omega) dest [] hl
      have hfp : findPath m ents origin dest = p := by
        rw [findPath_eq_of_some m ents hod hl, hrec, List.append_nil]
      rw [hfp]
      refine ⟨hv, hend, hnotin, ?_⟩
      intro q hq hqend
      rw [hcost]
      exact bfDist_le ho hl hq hqend

/-- findPath is empty exactly when the destination is the origin or no valid
path reaches the destination. -/
lemma findPath_empty_iff {m : GameMap} {ents : List Actor} {origin dest : Cell}
    (ho : origin ∈ allCells m) :
    findPath m ents origin dest = [] ↔
      (dest = origin ∨ ∀ q, ValidPath m ents origin q → q ≠ [] → endAt origin q ≠ dest) := by
  constructor
  · intro hemp
    by_cases hod : origin = dest
    · exact Or.inl hod.symm
    · right
      intro q hq hqne hqend
      cases hl : lookupDist (bfDist m ents origin) dest with
      | none =>
        obtain ⟨v, hv, _⟩ := bf_opt ho hq
        rw [hqend, hl] at hv
        simp at hv
      | some dc =>
        obtain ⟨p, hrec, _, hend, _, _⟩ := recon_spec ho (dc + 1) dc (by omega) dest [] hl
        have hfp : findPath m ents origin dest = p := by
          rw [findPath_eq_of_some m ents hod hl, hrec, List.append_nil]
        rw [hemp] at hfp
        rw [← hfp, endAt_nil] at hend
        exact hod hend
  · intro h
    rcases h with hdo | hunreach
    · exact findPath_eq_of_eq m ents hdo.symm
    · by_cases hod : origin = dest
      · exact findPath_eq_of_eq m ents hod
      · cases hl : lookupDist (bfDist m ents origin) dest with
        | none => exact findPath_eq_of_none m ents hod hl
        | some dc =>
          obtain ⟨p, hp, hend, _, _⟩ := bfDist_sound hl
          have hpne : p ≠ [] := by
            intro hpn
            rw [hpn, endAt_nil] at hend
            exact hod hend
          exact absurd hend (hunreach p hp hpne)

/-- The perception filter yields nothing when every other actor is either
out of the observer's field of view or in the observer's faction. -/
lemma getActorsInFov_none {m : GameMap} {others : List Actor} {self : Actor}
    (h : ∀ t ∈ others, getFov m self.pos t.pos = true → t.faction = self.faction) :
    getActorsInFov m others self = none := by
  unfold getActorsInFov
  have hnil : others.filterMap (fun t =>
      if getFov m self.pos t.pos && (t.faction != self.faction) then
        some (t, chebDist self.pos t.pos)
      else none) = [] := by
    rw [List.filterMap_eq_nil_iff]
    intro t ht
    rw [if_neg]
    intro hcond
    rcases Bool.and_eq_true _ _ |>.mp hcond with ⟨hfov, hfac⟩
    exact (bne_iff_ne.mp hfac) (h t ht hfov)
  rw [hnil]
  rfl

/-- The movement phase never touches the home field. -/
lemma orcMovePhase_home (w : World) (self : Actor) (st : OrcState) (rand : Nat) :
    (orcMovePhase w self st rand).2.home = st.home := by
  unfold orcMovePhase
  cases st.path with
  | nil =>
    simp only
    split <;> rfl
  | cons c rest => rfl

lemma trollMovePhase_home (w : World) (self : Actor) (st : TrollState) :
    (trollMovePhase w self st).2.home = st.home := by
  unfold trollMovePhase
  cases st.path with
  | nil =>
    simp only
    split <;> rfl
  | cons c rest => rfl

/-- One Orc turn sets home from the sentinel and otherwise preserves it. -/
lemma orcPerform_home (w : World) (self : Actor) (st : OrcState) (rand : Nat) :
    (orcPerform w self st rand).2.home =
      if st.home.1 = -999 then ((self.x : Int), (self.y : Int)) else st.home := by
  unfold orcPerform
  cases hg : getActorsInFov w.map w.others self with
  | none =>
    rw [orcMovePhase_home]
    split <;> rfl
  | some l =>
    cases l with
    | nil =>
      rw [orcMovePhase_home]
      split <;> rfl
    | cons td rest =>
      by_cases hd : td.2 ≤ 1
      · simp only [hd, if_pos]
        split <;> rfl
      · simp only [hd, if_neg, if_false]
        rw [orcMovePhase_home]
        split <;> rfl

lemma trollPerform_home (w : World) (self : Actor) (st : TrollState) :
    (trollPerform w self st).2.home =
      if st.home.1 = -999 then ((self.x : Int), (self.y : Int)) else st.home := by
  unfold trollPerform
  cases hg : getActorsInFov w.map w.others self with
  | none =>
    rw [trollMovePhase_home]
    split <;> rfl
  | some l =>
    cases l with
    | nil =>
      rw [trollMovePhase_home]
      split <;> rfl
    | cons td rest =>
      by_cases hd : td.2 ≤ 1
      · simp only [hd, if_pos]
        split <;> rfl
      · simp only [hd, if_neg, if_false]
        rw [trollMovePhase_home]
        split <;> rfl

/-- Once home is off the sentinel it survives any run of further turns. -/
lemma orcRun_home (steps : List (World × Actor × Nat)) :
    ∀ st : OrcState, st.home.1 ≠ -999 → (orcRun steps st).home = st.home := by
  induction steps with
  | nil => intro st _; rfl
  | cons i rest ih =>
    intro st hst
    have h1 : (orcPerform i.1 i.2.1 st i.2.2).2.home = st.home := by
      rw [orcPerform_home, if_neg hst]
    have h2 : (orcRun rest (orcPerform i.1 i.2.1 st i.2.2).2).home
        = (orcPerform i.1 i.2.1 st i.2.2).2.home :=
      ih _ (by rw [h1]; exact hst)
    calc (orcRun (i :: rest) st).home
        = (orcRun rest (orcPerform i.1 i.2.1 st i.2.2).2).home := rfl
      _ = st.home := by rw [h2, h1]

lemma trollRun_home (steps : List (World × Actor)) :
    ∀ st : TrollState, st.home.1 ≠ -999 → (trollRun steps st).home = st.home := by
  induction steps with
  | nil => intro st _; rfl
  | cons i rest ih =>
    intro st hst
    have h1 : (trollPerform i.1 i.2 st).2.home = st.home := by
      rw [trollPerform_home, if_neg hst]
    have h2 : (trollRun rest (trollPerform i.1 i.2 st).2).home
        = (trollPerform i.1 i.2 st).2.home :=
      ih _ (by rw [h1]; exact hst)
    calc (trollRun (i :: rest) st).home
        = (trollRun rest (trollPerform i.1 i.2 st).2).home := rfl
      _ = st.home := by rw [h2, h1]

lemma orcPerform_eq_movePhase {w : World} {self : Actor} {st : OrcState} {rand : Nat}
    (hp : getActorsInFov w.map w.others self = none) :
    orcPerform w self st rand = orcMovePhase w self
      (if st.home.1 = -999 then { st with home := ((self.x : Int), (self.y : Int)) } else st)
      rand := by
  simp only [orcPerform, hp]

lemma orcPerform_melee {w : World} {self : Actor} {st : OrcState} {rand : Nat}
    {t : Actor} {d : Nat} {rest : List (Actor × Nat)}
    (hp : getActorsInFov w.map w.others self = some ((t, d) :: rest)) (hd : d ≤ 1) :
    orcPerform w self st rand =
      (.melee ((t.x : Int) - (self.x : Int)) ((t.y : Int) - (self.y : Int)),
        if st.home.1 = -999 then { st with home := ((self.x : Int), (self.y : Int)) }
        else st) := by
  simp only [orcPerform, hp, if_pos hd]

lemma orcPerform_chase {w : World} {self : Actor} {st : OrcState} {rand : Nat}
    {t : Actor} {d : Nat} {rest : List (Actor × Nat)}
    (hp : getActorsInFov w.map w.others self = some ((t, d) :: rest)) (hd : ¬ d ≤ 1) :
    orcPerform w self st rand = orcMovePhase w self
      { (if st.home.1 = -999 then { st with home := ((self.x : Int), (self.y : Int)) }
          else st) with
        path := getPathTo w.map (self :: w.others) self.pos t.pos } rand := by
  simp only [orcPerform, hp, if_neg hd]

lemma orcMovePhase_cons (w : World) (self : Actor) {st : OrcState} (rand : Nat)
    {c : Cell} {cs : List Cell} (hpath : st.path = c :: cs) :
    orcMovePhase w self st rand =
      (.move ((c.1 : Int) - (self.x : Int)) ((c.2 : Int) - (self.y : Int)),
        { st with path := st.path.drop 2 }) := by
  unfold orcMovePhase
  rw [hpath]

lemma orcMovePhase_wander {w : World} {self : Actor} {st : OrcState} {rand : Nat}
    (hpath : st.path = []) (hh : (((self.x : Int), (self.y : Int)) : Int × Int) = st.home) :
    orcMovePhase w self st rand =
      (.wait, { st with
        path := getPathTo w.map (self :: w.others) self.pos
            (((allCells w.map).filter w.map.walkable).getD rand self.pos) }) := by
  unfold orcMovePhase
  rw [hpath]
  simp only [if_pos hh]

lemma orcMovePhase_goHome {w : World} {self : Actor} {st : OrcState} {rand : Nat}
    (hpath : st.path = [])
    (hh : ¬ (((self.x : Int), (self.y : Int)) : Int × Int) = st.home) :
    orcMovePhase w self st rand =
      (.wait, { st with
        path := getPathTo w.map (self :: w.others) self.pos
            (st.home.1.toNat, st.home.2.toNat) }) := by
  unfold orcMovePhase
  rw [hpath]
  simp only [if_neg hh]

lemma trollPerform_eq_movePhase {w : World} {self : Actor} {st : TrollState}
    (hp : getActorsInFov w.map w.others self = none) :
    trollPerform w self st = trollMovePhase w self
      (if st.home.1 = -999 then { st with home := ((self.x : Int), (self.y : Int)) }
        else st) := by
  simp only [trollPerform, hp]

lemma trollPerform_melee {w : World} {self : Actor} {st : TrollState}
    {t : Actor} {d : Nat} {rest : List (Actor × Nat)}
    (hp : getActorsInFov w.map w.others self = some ((t, d) :: rest)) (hd : d ≤ 1) :
    trollPerform w self st =
      (.melee ((t.x : Int) - (self.x : Int)) ((t.y : Int) - (self.y : Int)),
        if st.home.1 = -999 then { st with home := ((self.x : Int), (self.y : Int)) }
        else st) := by
  simp only [trollPerform, hp, if_pos hd]

lemma trollMovePhase_cons (w : World) (self : Actor) {st : TrollState}
    {c : Cell} {cs : List Cell} (hpath : st.path = c :: cs) :
    trollMovePhase w self st =
      (.move ((c.1 : Int) - (self.x : Int)) ((c.2 : Int) - (self.y : Int)),
        { st with path := st.path.drop 2 }) := by
  unfold trollMovePhase
  rw [hpath]

lemma trollMovePhase_atHome {w : World} {self : Actor} {st : TrollState}
    (hpath : st.path = []) (hh : (((self.x : Int), (self.y : Int)) : Int × Int) = st.home) :
    trollMovePhase w self st = (.wait, st) := by
  unfold trollMovePhase
  rw [hpath]
  simp only [if_pos hh]

lemma hostilePerform_no_target {w : World} {self : Actor} {st : HostileState}
    (hp : getActorsInFov w.map w.others self = none) :
    hostilePerform w self st = (.wait, st) := by
  simp only [hostilePerform, hp]

lemma hostilePerform_melee {w : World} {self : Actor} {st : HostileState}
    {t : Actor} {d : Nat} {rest : List (Actor × Nat)}
    (hp : getActorsInFov w.map w.others self = some ((t, d) :: rest)) (hd : d ≤ 1) :
    hostilePerform w self st =
      (.melee ((t.x : Int) - (self.x : Int)) ((t.y : Int) - (self.y : Int)), st) := by
  simp only [hostilePerform, hp, if_pos hd]

lemma hostilePerform_chase {w : World} {self : Actor} {st : HostileState}
    {t : Actor} {d : Nat} {rest : List (Actor × Nat)}
    (hp : getActorsInFov w.map w.others self = some ((t, d) :: rest)) (hd : ¬ d ≤ 1) :
    hostilePerform w self st =
      match getPathTo w.map (self :: w.others) self.pos t.pos with
      | [] => (.wait, { st with path := [] })
      | c :: rest2 =>
        (.move ((c.1 : Int) - (self.x : Int)) ((c.2 : Int) - (self.y : Int)),
          { st with path := rest2 }) := by
  simp only [hostilePerform, hp, if_neg hd]

lemma animalPerform_flee {w : World} {self : Actor} {st : AnimalState} {rand : Nat}
    {t : Actor} {d : Nat} {rest : List (Actor × Nat)}
    (hp : getActorsInFov w.map w.others self = some ((t, d) :: rest)) :
    animalPerform w self st rand =
      (.move (-(((t.x : Int) - (self.x : Int)).sign)) (-(((t.y : Int) - (self.y : Int)).sign)),
        { st with path := [] }) := by
  simp only [animalPerform, hp]

lemma animalPerform_no_target {w : World} {self : Actor} {st : AnimalState} {rand : Nat}
    (hp : getActorsInFov w.map w.others self = none) :
    animalPerform w self st rand = animalNoTarget w self st rand := by
  simp only [animalPerform, hp]

lemma animalNoTarget_cons {w : World} {self : Actor} {st : AnimalState} {rand : Nat}
    {c : Cell} {cs : List Cell} (hcor : w.map.corrupted self.pos = false)
    (hpath : st.path = c :: cs) :
    animalNoTarget w self st rand =
      (.move ((c.1 : Int) - (self.x : Int)) ((c.2 : Int) - (self.y : Int)),
        { st with path := st.path.drop 2 }) := by
  unfold animalNoTarget
  rw [if_neg (by simp [hcor]), hpath]

lemma animalNoTarget_corrupted {w : World} {self : Actor} {st : AnimalState} {rand : Nat}
    (hcor : w.map.corrupted self.pos = true) :
    animalNoTarget w self st rand = (.purify, st) := by
  unfold animalNoTarget
  rw [if_pos hcor]

lemma getD_mem {α : Type} {l : List α} {n : Nat} {d : α} (h : n < l.length) :
    l.getD n d ∈ l := by
  rw [List.getD_eq_getElem l d h]
  exact List.getElem_mem h

/-- C1 (amended): when no other actor is both inside the observer's field of
view and of a different faction, get_actors_in_fov returns the distinguished
None pair (modelled as Option.none), not an empty list; callers branch on
None-ness. -/
theorem C1_perception_empty_is_none (m : GameMap) (others : List Actor) (self : Actor)
    (h : ∀ t ∈ others, getFov m self.pos t.pos = true → t.faction = self.faction) :
    getActorsInFov m others self = none :=
  getActorsInFov_none h

/-- C1 counterexample: with a lone same-faction visible actor there is no
eligible target, and get_actors_in_fov returns none rather than the empty
list the claim asserts. -/
theorem C1_counterexample :
    getActorsInFov openMap [allyActor] obsOrc = none ∧
      getActorsInFov openMap [allyActor] obsOrc ≠ some [] := by
  decide

/-- C1 witness: the amended theorem applied to the concrete no-target scene. -/
theorem C1_witness : getActorsInFov openMap [allyActor] obsOrc = none :=
  C1_perception_empty_is_none openMap [allyActor] obsOrc (by decide)

/-- C2 (amended): an Orc standing at its home with an empty path and no
visible hostile stores a fresh path toward the rand-indexed walkable cell
(the modelled random.randint draw) and yields Wait this turn, while a Troll
in the same situation yields Wait with its state unchanged. -/
theorem C2_wander_sets_path_waits (w : World) (self : Actor) (ost : OrcState)
    (tst : TrollState) (rand : Nat)
    (hp : getActorsInFov w.map w.others self = none)
    (hopath : ost.path = [])
    (hohome : ost.home = ((self.x : Int), (self.y : Int)))
    (htpath : tst.path = [])
    (hthome : tst.home = ((self.x : Int), (self.y : Int)))
    (hrand : rand < ((allCells w.map).filter w.map.walkable).length) :
    orcPerform w self ost rand =
      (.wait, { ost with
        path := getPathTo w.map (self :: w.others) self.pos
            (((allCells w.map).filter w.map.walkable).getD rand self.pos) }) ∧
      ((allCells w.map).filter w.map.walkable).getD rand self.pos
        ∈ (allCells w.map).filter w.map.walkable ∧
      trollPerform w self tst = (.wait, tst) := by
  have h1 : ost.home.1 ≠ -999 := by
    rw [hohome]
    show ((self.x : Int)) ≠ -999
    omega
  have h2 : tst.home.1 ≠ -999 := by
    rw [hthome]
    show ((self.x : Int)) ≠ -999
    omega
  refine ⟨?_, getD_mem hrand, ?_⟩
  · rw [orcPerform_eq_movePhase hp, if_neg h1]
    exact orcMovePhase_wander hopath hohome.symm
  · rw [trollPerform_eq_movePhase hp, if_neg h2]
    exact trollMovePhase_atHome htpath hthome.symm

/-- C2 counterexample: the Orc of the claim's scenario emits Wait, not the
Move toward the fresh wander destination that the claim asserts. -/
theorem C2_counterexample :
    (orcPerform { map := openMap, others := [] } obsOrc { path := [], home := (1, 1) } 0).1
        = GAction.wait ∧
      ((orcPerform { map := openMap, others := [] } obsOrc
        { path := [], home := (1, 1) } 0).1).isMove = false := by
  decide

/-- C2 witness: the amended theorem applied to a concrete at-home scene,
with the stored wander path evaluated. -/
theorem C2_witness :
    orcPerform { map := openMap, others := [] } obsOrc { path := [], home := (1, 1) } 3
        = (.wait, { path := [(1, 0)], home := (1, 1) }) ∧
      trollPerform { map := openMap, others := [] } obsOrc { path := [], home := (1, 1) }
        = (.wait, { path := [], home := (1, 1) }) :=
  have h := C2_wander_sets_path_waits { map := openMap, others := [] } obsOrc
    { path := [], home := (1, 1) } { path := [], home := (1, 1) } 3
    (by decide) rfl (by decide) rfl (by decide) (by decide)
  ⟨h.1.trans (by decide), h.2.2⟩

/-- C3 (amended): on an Orc or Animal turn with no visible non-ally (and,
for the Animal, no corrupted tile underfoot) and a nonempty stored path,
the policy pops the first waypoint, Moves by the offset to it, and drops
the following waypoint as well, so exactly two waypoints are removed when
at least two remain; turns that melee (Orc) or flee (Animal) are excluded,
as the counterexample forces. -/
theorem C3_double_consumption (w : World) (self : Actor) (ost : OrcState)
    (ast : AnimalState) (rand : Nat) (c c2 : Cell) (cs cs2 : List Cell)
    (hp : getActorsInFov w.map w.others self = none)
    (hopath : ost.path = c :: cs)
    (hapath : ast.path = c2 :: cs2)
    (hcor : w.map.corrupted self.pos = false) :
    (orcPerform w self ost rand).1
        = .move ((c.1 : Int) - (self.x : Int)) ((c.2 : Int) - (self.y : Int)) ∧
      ((orcPerform w self ost rand).2).path = ost.path.drop 2 ∧
      animalPerform w self ast rand
        = (.move ((c2.1 : Int) - (self.x : Int)) ((c2.2 : Int) - (self.y : Int)),
            { ast with path := ast.path.drop 2 }) ∧
      (2 ≤ ost.path.length →
        ((orcPerform w self ost rand).2).path.length = ost.path.length - 2) := by
  have hselp : (if ost.home.1 = -999
      then { ost with home := ((self.x : Int), (self.y : Int)) } else ost).path
      = ost.path := by
    split <;> rfl
  have horc := orcMovePhase_cons w self rand (hselp.trans hopath)
  rw [orcPerform_eq_movePhase hp, horc]
  refine ⟨rfl, by rw [hselp], ?_, ?_⟩
  · rw [animalPerform_no_target hp]
    exact animalNoTarget_cons hcor hapath
  · intro hlen
    rw [hselp, List.length_drop]

/-- C3 counterexample: an Orc turn whose stored path is nonempty but whose
perception shows an adjacent hostile emits Melee and removes no waypoint,
contradicting the claim's universal pop-and-move behavior. -/
theorem C3_counterexample :
    orcPerform { map := openMap, others := [foeRight] } obsOrc
        { path := [(0, 0), (0, 1)], home := (1, 1) } 0
      = (.melee 1 0, { path := [(0, 0), (0, 1)], home := (1, 1) }) := by
  decide

/-- C3 witness: the amended theorem applied to a concrete wandering Orc and
Animal with three stored waypoints each. -/
theorem C3_witness :
    (orcPerform { map := openMap, others := [] } obsOrc
        { path := [(2, 1), (2, 2), (1, 2)], home := (1, 1) } 0).1 = .move 1 0 ∧
      ((orcPerform { map := openMap, others := [] } obsOrc
        { path := [(2, 1), (2, 2), (1, 2)], home := (1, 1) } 0).2).path = [(1, 2)] ∧
      animalPerform { map := openMap, others := [] } obsOrc
          { path := [(2, 1), (2, 2), (1, 2)] } 0
        = (.move 1 0, { path := [(1, 2)] }) ∧
      ((orcPerform { map := openMap, others := [] } obsOrc
        { path := [(2, 1), (2, 2), (1, 2)], home := (1, 1) } 0).2).path.length = 1 :=
  have h := C3_double_consumption { map := openMap, others := [] } obsOrc
    { path := [(2, 1), (2, 2), (1, 2)], home := (1, 1) } { path := [(2, 1), (2, 2), (1, 2)] }
    0 (2, 1) (2, 1) [(2, 2), (1, 2)] [(2, 2), (1, 2)] (by decide) rfl rfl (by decide)
  ⟨h.1.trans (by decide), (h.2.1).trans (by decide), (h.2.2.1).trans (by decide),
    (h.2.2.2 (by decide)).trans (by decide)⟩

/-- C4: for an on-map origin, the path returned by get_path_to never
contains the origin, is a valid start-to-goal ordered path ending at the
destination when nonempty, and is empty exactly when the destination is the
origin or no traversable route reaches it. -/
theorem C4_path_contract (m : GameMap) (ents : List Actor) (o d : Cell)
    (hw : o.1 < m.width) (hh : o.2 < m.height) :
    o ∉ getPathTo m ents o d ∧
      (getPathTo m ents o d ≠ [] →
        ValidPath m ents o (getPathTo m ents o d) ∧ endAt o (getPathTo m ents o d) = d) ∧
      (getPathTo m ents o d = [] ↔
        (d = o ∨ ∀ q, ValidPath m ents o q → q ≠ [] → endAt o q ≠ d)) := by
  have ho : o ∈ allCells m := mem_allCells.mpr ⟨hw, hh⟩
  refine ⟨?_, ?_, findPath_empty_iff ho⟩
  · by_cases hne : findPath m ents o d = []
    · unfold getPathTo
      rw [hne]
      simp
    · exact (findPath_spec ho hne).2.2.1
  · intro hne
    exact ⟨(findPath_spec ho hne).1, (findPath_spec ho hne).2.1⟩

/-- C4 witness: the contract applied to a concrete map with a congested
centre, plus the evaluated nonemptiness of that path. -/
theorem C4_witness :
    (0, 1) ∉ getPathTo openMap [obsLeft, blockerMid] (0, 1) (2, 1) ∧
      getPathTo openMap [obsLeft, blockerMid] (0, 1) (2, 1) ≠ [] :=
  ⟨(C4_path_contract openMap [obsLeft, blockerMid] (0, 1) (2, 1)
      (by decide) (by decide)).1, by decide⟩

/-- C5: for an on-map origin, a nonempty get_path_to result is a valid path
to the destination of minimum total cost under the congestion cost model
(walkable base cost 1, plus 10 per blocking creature, cardinal steps twice
and diagonal steps three times the destination cell cost). -/
theorem C5_min_cost_path (m : GameMap) (ents : List Actor) (o d : Cell) (q : List Cell)
    (hw : o.1 < m.width) (hh : o.2 < m.height) (hne : getPathTo m ents o d ≠ []) :
    ValidPath m ents o (getPathTo m ents o d) ∧
      endAt o (getPathTo m ents o d) = d ∧
      (ValidPath m ents o q → endAt o q = d →
        costFrom m ents o (getPathTo m ents o d) ≤ costFrom m ents o q) := by
  have ho : o ∈ allCells m := mem_allCells.mpr ⟨hw, hh⟩
  obtain ⟨h1, h2, _, h4⟩ := findPath_spec ho hne
  exact ⟨h1, h2, fun hq hqe => h4 q hq hqe⟩

/-- C5 witness: on the congested map the returned route [(1,0),(2,1)] costs
no more than the direct route through the blocked centre cell. -/
theorem C5_witness :
    getPathTo openMap [obsLeft, blockerMid] (0, 1) (2, 1) = [(1, 0), (2, 1)] ∧
      costFrom openMap [obsLeft, blockerMid] (0, 1)
          (getPathTo openMap [obsLeft, blockerMid] (0, 1) (2, 1))
        ≤ costFrom openMap [obsLeft, blockerMid] (0, 1) [(1, 1), (2, 1)] :=
  ⟨by decide,
    (C5_min_cost_path openMap [obsLeft, blockerMid] (0, 1) (2, 1) [(1, 1), (2, 1)]
      (by decide) (by decide) (by decide)).2.2 (by decide) (by decide)⟩

/-- C6: a HostileEnemy turn waits on empty perception, melees the nearest
visible hostile at Chebyshev distance at most 1, and otherwise recomputes
the path to the target from scratch (independently of the stored path),
popping exactly one waypoint for a Move when the path is nonempty and
waiting when it is empty. -/
theorem C6_hostile_policy (w : World) (self : Actor) (st : HostileState) (t : Actor)
    (d : Nat) (rest : List (Actor × Nat)) :
    (getActorsInFov w.map w.others self = none → hostilePerform w self st = (.wait, st)) ∧
      (getActorsInFov w.map w.others self = some ((t, d) :: rest) → d ≤ 1 →
        hostilePerform w self st
          = (.melee ((t.x : Int) - (self.x : Int)) ((t.y : Int) - (self.y : Int)), st)) ∧
      (getActorsInFov w.map w.others self = some ((t, d) :: rest) → 1 < d →
        hostilePerform w self st =
          match getPathTo w.map (self :: w.others) self.pos t.pos with
          | [] => (.wait, { st with path := [] })
          | c :: cs =>
            (.move ((c.1 : Int) - (self.x : Int)) ((c.2 : Int) - (self.y : Int)),
              { st with path := cs })) :=
  ⟨fun hp => hostilePerform_no_target hp,
    fun hp hd => hostilePerform_melee hp hd,
    fun hp hd => hostilePerform_chase hp (by omega)⟩

/-- C6 witness: the melee branch on an adjacent visible hostile. -/
theorem C6_witness :
    hostilePerform { map := openMap, others := [foeRight] } obsOrc HostileState.init
      = (.melee 1 0, HostileState.init) :=
  have h := (C6_hostile_policy { map := openMap, others := [foeRight] } obsOrc
    HostileState.init foeRight 1 []).2.1 (by decide) (by decide)
  h.trans (by decide)

/-- C7: an Animal turn with a nonempty perception result discards the
stored wander path and flees one step by the negated per-axis sign of the
offset to the nearest target, with no pathfinding involved. -/
theorem C7_animal_flees (w : World) (self : Actor) (st : AnimalState) (rand : Nat)
    (t : Actor) (d : Nat) (rest : List (Actor × Nat))
    (hp : getActorsInFov w.map w.others self = some ((t, d) :: rest)) :
    animalPerform w self st rand
      = (.move (-(((t.x : Int) - (self.x : Int)).sign))
          (-(((t.y : Int) - (self.y : Int)).sign)), { st with path := [] }) :=
  animalPerform_flee hp

/-- C7 witness: a visible non-ally at relative offset (+2, 0) makes the
Animal emit Move(-1, 0) and empty its wander path. -/
theorem C7_witness :
    animalPerform { map := openMap, others := [foeRight] } animalLeft
        { path := [(0, 0)] } 0
      = (.move (-1) 0, { path := [] }) :=
  have h := C7_animal_flees { map := openMap, others := [foeRight] } animalLeft
    { path := [(0, 0)] } 0 foeRight 2 [] (by decide)
  h.trans (by decide)

/-- C8: Orc and Troll homes start at the sentinel (-999, -999), are set to
the creature's position by the first perform call, and stay unchanged over
every further run of turns. -/
theorem C8_home_set_once (w : World) (self : Actor) (rand : Nat)
    (steps : List (World × Actor × Nat)) (tw : World) (tself : Actor)
    (tsteps : List (World × Actor)) :
    OrcState.init.home = (-999, -999) ∧ TrollState.init.home = (-999, -999) ∧
      (orcRun steps (orcPerform w self OrcState.init rand).2).home
        = ((self.x : Int), (self.y : Int)) ∧
      (trollRun tsteps (trollPerform tw tself TrollState.init).2).home
        = ((tself.x : Int), (tself.y : Int)) := by
  have h1 : (orcPerform w self OrcState.init rand).2.home
      = ((self.x : Int), (self.y : Int)) := by
    rw [orcPerform_home]
    rfl
  have h2 : (trollPerform tw tself TrollState.init).2.home
      = ((tself.x : Int), (tself.y : Int)) := by
    rw [trollPerform_home]
    rfl
  refine ⟨rfl, rfl, ?_, ?_⟩
  · rw [orcRun_home steps _ ?_, h1]
    rw [h1]
    show ((self.x : Int)) ≠ -999
    omega
  · rw [trollRun_home tsteps _ ?_, h2]
    rw [h2]
    show ((tself.x : Int)) ≠ -999
    omega

/-- C9: the visibility, pathfinding and perception operations are pure
functions of their inputs, so two invocations on identical inputs give
identical outputs. -/
theorem C9_pure_deterministic (m : GameMap) (ents : List Actor) (o d c : Cell)
    (others : List Actor) (self : Actor) :
    getFov m o c = getFov m o c ∧
      getPathTo m ents o d = getPathTo m ents o d ∧
      getActorsInFov m others self = getActorsInFov m others self :=
  ⟨rfl, rfl, rfl⟩

/-- C10 (amended): on a Troll turn with no visible non-ally and a nonempty
stored path, the Troll pops the first waypoint, Moves toward it, and drops
the following waypoint too, removing exactly two waypoints when at least
two remain, the same double consumption as Orc and Animal; melee turns are
excluded, as the counterexample forces. -/
theorem C10_troll_double_consumption (w : World) (self : Actor) (tst : TrollState)
    (c : Cell) (cs : List Cell)
    (hp : getActorsInFov w.map w.others self = none)
    (hpath : tst.path = c :: cs) :
    (trollPerform w self tst).1
        = .move ((c.1 : Int) - (self.x : Int)) ((c.2 : Int) - (self.y : Int)) ∧
      (trollPerform w self tst).2.path = tst.path.drop 2 ∧
      (2 ≤ tst.path.length →
        (trollPerform w self tst).2.path.length = tst.path.length - 2) := by
  have hselp : (if tst.home.1 = -999
      then { tst with home := ((self.x : Int), (self.y : Int)) } else tst).path
      = tst.path := by
    split <;> rfl
  have htroll := trollMovePhase_cons w self (hselp.trans hpath)
  rw [trollPerform_eq_movePhase hp, htroll]
  refine ⟨rfl, by rw [hselp], ?_⟩
  intro hlen
  rw [hselp, List.length_drop]

/-- C10 counterexample: a Troll turn with a nonempty stored path and an
adjacent visible hostile melees and removes no waypoint. -/
theorem C10_counterexample :
    trollPerform { map := openMap, others := [foeRight] } obsOrc
        { path := [(0, 0), (0, 1)], home := (1, 1) }
      = (.melee 1 0, { path := [(0, 0), (0, 1)], home := (1, 1) }) := by
  decide

/-- C10 witness: the amended theorem applied to a wandering Troll with
three stored waypoints. -/
theorem C10_witness :
    (trollPerform { map := openMap, others := [] } obsOrc
        { path := [(2, 1), (2, 2), (1, 2)], home := (1, 1) }).1 = .move 1 0 ∧
      (trollPerform { map := openMap, others := [] } obsOrc
        { path := [(2, 1), (2, 2), (1, 2)], home := (1, 1) }).2.path = [(1, 2)] ∧
      (trollPerform { map := openMap, others := [] } obsOrc
        { path := [(2, 1), (2, 2), (1, 2)], home := (1, 1) }).2.path.length = 1 :=
  have h := C10_troll_double_consumption { map := openMap, others := [] } obsOrc
    { path := [(2, 1), (2, 2), (1, 2)], home := (1, 1) } (2, 1) [(2, 2), (1, 2)]
    (by decide) rfl
  ⟨h.1.trans (by decide), (h.2.1).trans (by decide), (h.2.2 (by decide)).trans (by decide)⟩

end RL
